import Mathlib

/-!
Shallow embedding of the `latke` duplicate-file finder core
(`src/main.rs`, `src/dir.rs`, `src/file.rs`, `src/dev_id.rs`).

Modelling choices:
* Paths are strings; device ids (`DevId`, an opaque `u64` in `dev_id.rs`)
  are naturals; file contents are strings.
* The SHA-512 digest (external `sha2` crate) is modelled as an injective
  function on contents; since the program only ever compares digests for
  equality, the identity function suffices.
* `DashMap`/`HashMap` are modelled as association lists with atomic
  per-key `alookup`/`ainsert`/`aremove`; `DashSet<PathBuf>` as a list of
  paths with first-insert-wins membership.
* Filesystem interaction (`fs::read_dir`, `File::open`, `DevId::new`)
  is supplied by an `Env` of oracles; an I/O failure is `none`/`Entry.ioFail`.
* Every operation that the Rust code runs against the shared `Worker`
  returns the worker state it leaves behind together with an `Outcome`:
  `.ok` for `Ok(_)`, `.err` for an `anyhow` error return, `.panic` for
  `unwrap()`/`assert!`/`todo!`/`unreachable!` aborts.  Mutations that the
  code performs before failing are visible in the returned worker.
-/

/-- Filesystem paths (`PathBuf`). -/
abbrev FsPath := String

/-- Device / volume identity (`dev_id.rs`: `DevId(u64)`). -/
abbrev DevId := Nat

/-- Content digests (`file.rs`: `pub type Hash = [u8; 64]`), modelled as the
file content itself (SHA-512 idealised as injective). -/
abbrev FileDigest := String

/-- What `Metadata`'s file-type bits report for an entry: exactly one of
`is_symlink`, `is_dir`, `is_file`, or none of the three. -/
inductive MetaKind where
  | file
  | dir
  | symlink
  | other
  deriving DecidableEq, Repr

/-- A metadata snapshot (`Meta = fs::Metadata`): its file-type bits plus an
opaque payload `tag` standing for the remaining fields (size, mtime, ...),
which the program stores but never inspects. -/
structure Meta where
  kind : MetaKind
  tag : Nat
  deriving DecidableEq, Repr

/-- `Item` from `main.rs`: a classified entry.  In Rust its `Eq`, `Ord` and
`Hash` instances look at the path only; the embedding keeps the metadata in
the constructor and compares by path where the code does. -/
inductive Item where
  | file (p : FsPath) (m : Meta)
  | dir (p : FsPath) (m : Meta)
  | symlink (p : FsPath) (m : Meta)
  deriving DecidableEq, Repr

/-- `Item::path`. -/
def Item.path : Item → FsPath
  | .file p _ => p
  | .dir p _ => p
  | .symlink p _ => p

/-- `Item::new`: symlink bit checked first, then dir, then file; the final
branch is `unreachable!()`, modelled as `none` (a panic at the call site). -/
def Item.new (p : FsPath) (m : Meta) : Option Item :=
  if m.kind = .symlink then some (.symlink p m)
  else if m.kind = .dir then some (.dir p m)
  else if m.kind = .file then some (.file p m)
  else none

/-- `Job` from `main.rs`. -/
inductive Job where
  | item (i : Item) (rootId : Option DevId)
  | finalizeDir (p : FsPath) (children : List Item)
  deriving DecidableEq, Repr

/-- Result of running a piece of the program: `Ok`, an `anyhow::Error`
return, or a panic (`unwrap`, `assert!`, `todo!`, `unreachable!`). -/
inductive Outcome (α : Type) where
  | ok (val : α)
  | err
  | panic
  deriving DecidableEq, Repr

/-- One child entry as yielded by `fs::read_dir`: either a successfully
stat'ed `(path, metadata)` pair or a per-child I/O failure. -/
inductive Entry where
  | ok (p : FsPath) (m : Meta)
  | ioFail
  deriving DecidableEq, Repr

/-- Association-list lookup, modelling `DashMap::get` / `HashMap::get`. -/
def alookup {κ α : Type} [DecidableEq κ] (k : κ) : List (κ × α) → Option α
  | [] => none
  | (k', v) :: t => if k = k' then some v else alookup k t

/-- Association-list insert-or-replace, modelling `insert` on
`DashMap`/`HashMap` (the old value, if any, is returned by `alookup` before
the insert). -/
def ainsert {κ α : Type} [DecidableEq κ] (k : κ) (v : α) : List (κ × α) → List (κ × α)
  | [] => [(k, v)]
  | (k', v') :: t => if k = k' then (k, v) :: t else (k', v') :: ainsert k v t

/-- Association-list removal, modelling `HashMap::remove`. -/
def aremove {κ α : Type} [DecidableEq κ] (k : κ) : List (κ × α) → List (κ × α)
  | [] => []
  | (k', v') :: t => if k = k' then t else (k', v') :: aremove k t

/-- The shared `Worker` context from `main.rs`: configuration, the four
progress counters, the `seen` set, and the two halves of the content index. -/
structure Worker where
  blockSize : Nat
  filesDone : Nat
  dirsDone : Nat
  totalFiles : Nat
  totalDirs : Nat
  seen : List FsPath
  hashForPath : List (FsPath × FileDigest)
  fileHashes : List (FileDigest × List (FsPath × Meta))
  deriving DecidableEq, Repr

/-- A fresh worker, as built at the top of `run`. -/
def Worker.init (blockSize : Nat) : Worker :=
  { blockSize := blockSize
    filesDone := 0
    dirsDone := 0
    totalFiles := 0
    totalDirs := 0
    seen := []
    hashForPath := []
    fileHashes := [] }

/-- The filesystem as the program observes it: `DevId::new`, `fs::read_dir`
(for the walker and for the finalizer's re-list), and file contents as read
by the hasher (`none` = open/read error). -/
structure Env where
  devOf : FsPath → Option DevId
  listing : FsPath → Option (List Entry)
  contents : FsPath → Option String
  relistOf : FsPath → Option (List Entry)

/-- `DashSet::insert` on `seen`: `true` iff the path was newly inserted. -/
def seenInsert (p : FsPath) (w : Worker) : Bool × Worker :=
  if p ∈ w.seen then (false, w) else (true, { w with seen := p :: w.seen })

/-- SHA-512 of a file's contents, idealised as injective (identity). -/
def sha512 (s : String) : FileDigest := s

/-- `Job::path` from `main.rs`: resolve the child's device id (I/O error on
failure), prune silently when a root id is present and differs, classify the
item (`unreachable!()` panic possible), bump the matching total counter, and
wrap the item as a job. -/
def Job.path (p : FsPath) (m : Meta) (rootId : Option DevId) (devOf : FsPath → Option DevId)
    (w : Worker) : Worker × Outcome (Option Job) :=
  match devOf p with
  | none => (w, .err)
  | some pathId =>
    if (match rootId with | none => false | some r => decide (r ≠ pathId)) then
      (w, .ok none)
    else
      match Item.new p m with
      | none => (w, .panic)
      | some i =>
        let w :=
          match i with
          | .file _ _ => { w with totalFiles := w.totalFiles + 1 }
          | .symlink _ _ => { w with totalFiles := w.totalFiles + 1 }
          | .dir _ _ => { w with totalDirs := w.totalDirs + 1 }
        (w, .ok (some (.item i rootId)))

/-- `Worker::tally`: bump the done counter matching the job's item kind,
then check-and-insert the path into `seen`; `FinalizeDir` jobs bypass both
and report `true`. -/
def tally (j : Job) (w : Worker) : Bool × Worker :=
  match j with
  | .item (.file p _) _ => seenInsert p { w with filesDone := w.filesDone + 1 }
  | .item (.symlink p _) _ => seenInsert p { w with filesDone := w.filesDone + 1 }
  | .item (.dir p _) _ => seenInsert p { w with dirsDone := w.dirsDone + 1 }
  | .finalizeDir _ _ => (true, w)

/-- `file::hash`: open and stream the file (`none` content = I/O error),
insert `(path, digest)` into `hash_for_path`, and only when that insert
found no previous entry, insert `(path, meta)` into the digest's bucket of
`file_hashes`, asserting the bucket did not already hold the path. -/
def hashFile (p : FsPath) (m : Meta) (content : Option String) (w : Worker) :
    Worker × Outcome Unit :=
  match content with
  | none => (w, .err)
  | some c =>
    match alookup p w.hashForPath with
    | some _ => ({ w with hashForPath := ainsert p (sha512 c) w.hashForPath }, .ok ())
    | none =>
      if (alookup p ((alookup (sha512 c) w.fileHashes).getD [])).isSome then
        ({ w with hashForPath := ainsert p (sha512 c) w.hashForPath }, .panic)
      else
        ({ w with
            hashForPath := ainsert p (sha512 c) w.hashForPath
            fileHashes :=
              ainsert (sha512 c) (ainsert p m ((alookup (sha512 c) w.fileHashes).getD []))
                w.fileHashes },
          .ok ())

/-- `HashSet<Item>::insert` on the walker's `child_paths` snapshot: item
equality is by path, so an item whose path is already present is not added. -/
def itemInsert (i : Item) (s : List Item) : List Item :=
  if s.any (fun j => j.path = i.path) then s else s ++ [i]

/-- The child loop of `dir::recurse`: per-child I/O errors are logged and
skipped; a successful child is classified (`unreachable!()` panic possible),
always recorded in the snapshot, then skipped if already `seen`, else
submitted to `Job::path` whose error aborts the whole walk via `?`. -/
def recurseGo (devOf : FsPath → Option DevId) (rootId : Option DevId) :
    List Entry → Worker → List Job → List Item → Worker × Outcome (List Job × List Item)
  | [], w, jobs, snap => (w, .ok (jobs, snap))
  | .ioFail :: rest, w, jobs, snap => recurseGo devOf rootId rest w jobs snap
  | .ok p m :: rest, w, jobs, snap =>
    match Item.new p m with
    | none => (w, .panic)
    | some i =>
      let snap := itemInsert i snap
      if p ∈ w.seen then recurseGo devOf rootId rest w jobs snap
      else
        match Job.path p m rootId devOf w with
        | (w, .err) => (w, .err)
        | (w, .panic) => (w, .panic)
        | (w, .ok none) => recurseGo devOf rootId rest w jobs snap
        | (w, .ok (some j)) => recurseGo devOf rootId rest w (jobs ++ [j]) snap

/-- `dir::recurse`: list the directory (I/O error aborts), walk the children,
then create the `FinalizeDir(path, child_paths)` node depending on every
created child job.  The returned job list is the set of jobs handed to the
scheduler: the child jobs plus the finalize node. -/
def recurse (env : Env) (p : FsPath) (rootId : Option DevId) (w : Worker) :
    Worker × Outcome (List Job) :=
  match env.listing p with
  | none => (w, .err)
  | some entries =>
    match recurseGo env.devOf rootId entries w [] [] with
    | (w, .err) => (w, .err)
    | (w, .panic) => (w, .panic)
    | (w, .ok (jobs, snap)) => (w, .ok (jobs ++ [.finalizeDir p snap]))

/-- The aggregation body of `dir::finalize` for one child: a `File` child
looks up its digest (`unwrap` panic on a miss), clones the digest's bucket
(`unwrap` panic on a missing bucket), and removes its own path from the
clone (`assert!` panic when absent), yielding the remaining entries as its
duplicate-info; `Dir` and `Symlink` children hit `todo!` panics. -/
def childInfo (w : Worker) : Item → Option (List (FsPath × Meta))
  | .file p _ =>
    match alookup p w.hashForPath with
    | none => none
    | some h =>
      match alookup h w.fileHashes with
      | none => none
      | some bucket =>
        if (alookup p bucket).isSome then some (aremove p bucket) else none
  | .dir _ _ => none
  | .symlink _ _ => none

/-- The aggregation loop of `dir::finalize`: build `child_infos` over the
snapshot, with the `assert!` that no child is inserted twice (impossible for
a genuine `HashSet` snapshot, a panic otherwise).  The shared maps are only
read: the per-child removal acts on a clone of the bucket. -/
def aggregate (w : Worker) : List Item → Option (List (Item × List (FsPath × Meta)))
  | [] => some []
  | c :: rest => do
    let info ← childInfo w c
    let restInfos ← aggregate w rest
    if restInfos.any (fun ci => ci.1.path = c.path) then none else some ((c, info) :: restInfos)

/-- Classification of the finalizer's re-listing, mirroring the sequential
`map`/`collect` in `dir::finalize`: entries are stat'ed and classified in
order; the first per-child I/O failure makes the whole collect an `Err`
(classification of later entries never runs); a classification fallthrough
is an `unreachable!()` panic. -/
def relistItems : List Entry → Outcome (List Item)
  | [] => .ok []
  | .ioFail :: _ => .err
  | .ok p m :: rest =>
    match Item.new p m with
    | none => .panic
    | some i =>
      match relistItems rest with
      | .ok is => .ok (i :: is)
      | .err => .err
      | .panic => .panic

/-- `HashSet<Item>` equality as used by `c == children`: `Item`'s `Eq` and
`Hash` compare paths only, so two snapshots are equal exactly when they
cover the same paths. -/
def itemSetEq (a b : List Item) : Bool :=
  a.all (fun i => b.any (fun j => j.path = i.path)) &&
    b.all (fun i => a.any (fun j => j.path = i.path))

/-- The consistency-check phase of `dir::finalize`: re-list the directory;
a read failure or a mismatch with the snapshot is a logged warning (`true`),
never an error; only a classification fallthrough panics. -/
def relistCheck (relist : Option (List Entry)) (children : List Item) : Outcome Bool :=
  match relist with
  | none => .ok true
  | some l =>
    match relistItems l with
    | .err => .ok true
    | .panic => .panic
    | .ok items => .ok (!(itemSetEq items children))

/-- What `dir::finalize` produces: whether the staleness warning fired, and
the `child_infos` duplicate-info map (an association list in snapshot
order standing for the unordered `HashMap<Item, _>`). -/
structure FinalizeRes where
  warned : Bool
  infos : List (Item × List (FsPath × Meta))
  deriving DecidableEq, Repr

/-- `dir::finalize`: run the consistency check (warn, never fail), then
aggregate the original snapshot.  The worker is returned unchanged: the
only mutation in the source, `info.remove(path)`, acts on
`file_hashes.get(hash).unwrap().value().clone()` — a clone — so the shared
maps are untouched. -/
def finalize (relist : Option (List Entry)) (d : FsPath) (children : List Item)
    (w : Worker) : Worker × Outcome FinalizeRes :=
  match relistCheck relist children with
  | .panic => (w, .panic)
  | .err => (w, .err)
  | .ok warned =>
    match aggregate w children with
    | none => (w, .panic)
    | some infos => (w, .ok ⟨warned, infos⟩)

/-- `process` from `main.rs`: tally the job (skipping already-seen items),
then dispatch: files to the hasher, directories to the walker, symlinks to
the `bail!` stub, finalize jobs to the finalizer.  Returns the worker state
left behind and, on success, the jobs pushed to the scheduler. -/
def process (env : Env) (j : Job) (w : Worker) : Worker × Outcome (List Job) :=
  match tally j w with
  | (false, w) => (w, .ok [])
  | (true, w) =>
    match j with
    | .item (.file p m) _ =>
      match hashFile p m (env.contents p) w with
      | (w, .ok ()) => (w, .ok [])
      | (w, .err) => (w, .err)
      | (w, .panic) => (w, .panic)
    | .item (.dir p _) rootId => recurse env p rootId w
    | .item (.symlink _ _) _ => (w, .err)
    | .finalizeDir p children =>
      match finalize (env.relistOf p) p children w with
      | (w, .ok _) => (w, .ok [])
      | (w, .err) => (w, .err)
      | (w, .panic) => (w, .panic)

/-- The root device id computed in `run`: `None` when crossing filesystems
is allowed, otherwise `DevId::new(root)` whose failure is fatal. -/
def rootIdFor (crossFilesystems : Bool) (devOf : FsPath → Option DevId) (p : FsPath) :
    Outcome (Option DevId) :=
  if crossFilesystems then .ok none
  else
    match devOf p with
    | none => .err
    | some d => .ok (some d)

/-- The root loop of `run`: each `(path, meta)` root goes through
`Job::path`; an error or panic aborts the run, a pruned root is skipped,
an admitted root's job is pushed. -/
def createAll (devOf : FsPath → Option DevId) (rootId : Option DevId) :
    List (FsPath × Meta) → Worker → Worker × Outcome (List Job)
  | [], w => (w, .ok [])
  | (p, m) :: rest, w =>
    match Job.path p m rootId devOf w with
    | (w, .err) => (w, .err)
    | (w, .panic) => (w, .panic)
    | (w, .ok none) => createAll devOf rootId rest w
    | (w, .ok (some j)) =>
      match createAll devOf rootId rest w with
      | (w, .ok js) => (w, .ok (j :: js))
      | (w, .err) => (w, .err)
      | (w, .panic) => (w, .panic)

/-- The content-index invariant of the spec: a path appearing inside any
bucket of `file_hashes` already has an entry in `hash_for_path`. -/
def BucketInv (w : Worker) : Prop :=
  ∀ (h : FileDigest) (bucket : List (FsPath × Meta)) (p : FsPath),
    alookup h w.fileHashes = some bucket → (alookup p bucket).isSome →
      (alookup p w.hashForPath).isSome

/-- One mutation of the shared `Worker` during a run: either some worker
thread runs `process` on a job, or the root loop of `run` admits a root
through `Job::path`.  The resulting worker state is recorded whatever the
outcome, matching the in-place mutation of the shared context. -/
inductive WStep (env : Env) : Worker → Worker → Prop where
  | proc (j : Job) (w w' : Worker) (o : Outcome (List Job)) :
      process env j w = (w', o) → WStep env w w'
  | root (p : FsPath) (m : Meta) (rootId : Option DevId) (w w' : Worker)
      (o : Outcome (Option Job)) :
      Job.path p m rootId env.devOf w = (w', o) → WStep env w w'

/-- Worker states reachable in some run: the fresh context built at the top
of `run`, followed by any sequence of operations. -/
def ReachableWorker (env : Env) (blockSize : Nat) (w : Worker) : Prop :=
  Relation.ReflTransGen (WStep env) (Worker.init blockSize) w

/-- File-class `ProcessItem` jobs: `File` and `Symlink` items, the kinds
that `Job::path` counts in `total_files` and `Worker::tally` counts in
`files_done`. -/
def isFileJob : Job → Bool
  | .item (.file _ _) _ => true
  | .item (.symlink _ _) _ => true
  | _ => false

/-- Directory `ProcessItem` jobs, counted in `total_dirs` / `dirs_done`. -/
def isDirJob : Job → Bool
  | .item (.dir _ _) _ => true
  | _ => false

/-- Number of file-class jobs in a job list. -/
def pendingFiles (js : List Job) : Nat := js.countP (fun j => isFileJob j)

/-- Number of directory jobs in a job list. -/
def pendingDirs (js : List Job) : Nat := js.countP (fun j => isDirJob j)

/-- `total_files` contribution of one `Job::path` result. -/
def spawnFiles : Outcome (Option Job) → Nat
  | .ok (some j) => if isFileJob j then 1 else 0
  | _ => 0

/-- `total_dirs` contribution of one `Job::path` result. -/
def spawnDirs : Outcome (Option Job) → Nat
  | .ok (some j) => if isDirJob j then 1 else 0
  | _ => 0

/-- A scheduler configuration: the created-but-not-yet-executed jobs
(as a list standing for a multiset; execution order is abstracted, which
covers every order the LIFO pool can realise) and the shared worker. -/
structure Config where
  pending : List Job
  w : Worker
  deriving DecidableEq, Repr

/-- One scheduler transition: a worker thread picks any pending job and
runs `process` on it.  A successful job pushes its spawned jobs; a failed
`File`/`Symlink` job is logged and dropped (its error touches no counter).
Error paths that a permission-error-free run never reaches (a directory
walk failing halfway) and panics are not modelled as transitions. -/
inductive SchedStep (env : Env) : Config → Config → Prop where
  | okStep (j : Job) (c : Config) (w' : Worker) (spawned : List Job) :
      j ∈ c.pending → process env j c.w = (w', .ok spawned) →
      SchedStep env c ⟨c.pending.erase j ++ spawned, w'⟩
  | errFile (j : Job) (c : Config) (w' : Worker) :
      j ∈ c.pending → isFileJob j = true → process env j c.w = (w', .err) →
      SchedStep env c ⟨c.pending.erase j, w'⟩

/-- The counter-accounting invariant: every total equals the matching done
counter plus the jobs of that class still pending. -/
def CountersBalanced (c : Config) : Prop :=
  c.w.totalFiles = c.w.filesDone + pendingFiles c.pending ∧
    c.w.totalDirs = c.w.dirsDone + pendingDirs c.pending

/-- The duplicate-info component of a `finalize` result (the part the
consistency check must not influence). -/
def aggOutcome : Worker × Outcome FinalizeRes → Outcome (List (Item × List (FsPath × Meta)))
  | (_, .ok r) => .ok r.infos
  | (_, .err) => .err
  | (_, .panic) => .panic

/-! ### Concrete scenarios -/

/-- Metadata constants for the scenarios (distinct opaque tags). -/
def mA : Meta := ⟨.file, 1⟩

def mB : Meta := ⟨.file, 2⟩

def mC : Meta := ⟨.file, 3⟩

def mD : Meta := ⟨.dir, 0⟩

def mS : Meta := ⟨.symlink, 4⟩

/-- The spec scenario: one device, directory `d` holding `a.txt` = "hello",
`b.txt` = "hello", `c.txt` = "world"; the filesystem is quiescent, so the
finalizer's re-list sees the same children. -/
def envC4 : Env where
  devOf := fun _ => some 7
  listing := fun p =>
    if p = "d" then some [.ok "d/a.txt" mA, .ok "d/b.txt" mB, .ok "d/c.txt" mC] else none
  contents := fun p =>
    if p = "d/a.txt" then some "hello"
    else if p = "d/b.txt" then some "hello"
    else if p = "d/c.txt" then some "world"
    else none
  relistOf := fun p =>
    if p = "d" then some [.ok "d/a.txt" mA, .ok "d/b.txt" mB, .ok "d/c.txt" mC] else none

def c4DirJob : Job := .item (.dir "d" mD) (some 7)

def c4JobA : Job := .item (.file "d/a.txt" mA) (some 7)

def c4JobB : Job := .item (.file "d/b.txt" mB) (some 7)

def c4JobC : Job := .item (.file "d/c.txt" mC) (some 7)

def c4Snap : List Item := [.file "d/a.txt" mA, .file "d/b.txt" mB, .file "d/c.txt" mC]

def c4FinJob : Job := .finalizeDir "d" c4Snap

/-- Worker states along the only dependency-respecting schedule: root
admission, directory walk, the three hashing jobs, then finalize. -/
def c4w1 : Worker := (createAll envC4.devOf (some 7) [("d", mD)] (Worker.init 4)).1

def c4w2 : Worker := (process envC4 c4DirJob c4w1).1

def c4w3 : Worker := (process envC4 c4JobA c4w2).1

def c4w4 : Worker := (process envC4 c4JobB c4w3).1

def c4w5 : Worker := (process envC4 c4JobC c4w4).1

/-- Walker scenario for the finalize-totality claim: directory `D` has a
regular child `D/s` whose path is already in `seen` (so no job is created
for it) and a child `D/t` on a different device (pruned).  Neither child
ever reaches the hasher, yet both land in the snapshot. -/
def envC3 : Env where
  devOf := fun p => if p = "D/t" then some 6 else some 5
  listing := fun p =>
    if p = "D" then some [.ok "D/s" mA, .ok "D/t" mB] else none
  contents := fun _ => none
  relistOf := fun p =>
    if p = "D" then some [.ok "D/s" mA, .ok "D/t" mB] else none

def c3Worker : Worker := { Worker.init 4 with seen := ["D/s"] }

def c3Snap : List Item := [.file "D/s" mA, .file "D/t" mB]

/-- A worker state right after two duplicate files `a` and `b` have been
hashed: both paths registered, both sharing the "hello" bucket. -/
def c1Worker : Worker :=
  { Worker.init 4 with
      seen := ["b", "a"]
      hashForPath := [("a", sha512 "hello"), ("b", sha512 "hello")]
      fileHashes := [(sha512 "hello", [("a", mA), ("b", mB)])] }

def c1Children : List Item := [.file "a" mA, .file "b" mB]

def c1Relist : Option (List Entry) := some [.ok "a" mA, .ok "b" mB]

/-- A worker that has already admitted symlink path `l` to `seen` (as after
a first execution of the same job, e.g. from duplicate roots). -/
def c10Worker : Worker := { Worker.init 4 with seen := ["l"] }

/-- An environment with a single device and no readable filesystem, enough
for symlink jobs (which never touch the filesystem oracles). -/
def envC10 : Env where
  devOf := fun _ => some 3
  listing := fun _ => none
  contents := fun _ => none
  relistOf := fun _ => none

/-- Single-file drain scenario for the counter-matching claim. -/
def c9w1 : Worker := (createAll envC4.devOf (some 7) [("d/a.txt", mA)] (Worker.init 4)).1

def c9w2 : Worker := (process envC4 c4JobA c9w1).1

def c9cfg : Config := ⟨[c4JobA], c9w1⟩

/-! ### Association-list lemmas -/

theorem alookup_ainsert {κ α : Type} [DecidableEq κ] (k q : κ) (v : α) (l : List (κ × α)) :
    alookup q (ainsert k v l) = if q = k then some v else alookup q l := by
  induction l with
  | nil => simp [alookup, ainsert]
  | cons hd tl ih =>
    obtain ⟨k', v'⟩ := hd
    by_cases hk : k = k'
    · subst hk
      by_cases hq : q = k <;> simp [alookup, ainsert, hq]
    · by_cases hq : q = k'
      · subst hq
        simp [alookup, ainsert, hk, Ne.symm hk]
      · simp [alookup, ainsert, hk, hq, ih]

theorem alookup_ainsert_isSome_mono {κ α : Type} [DecidableEq κ] {k q : κ} {v : α}
    {l : List (κ × α)} (h : (alookup q l).isSome) : (alookup q (ainsert k v l)).isSome := by
  rw [alookup_ainsert]
  by_cases hq : q = k <;> simp [hq, h]

theorem alookup_ainsert_isSome_elim {κ α : Type} [DecidableEq κ] {k q : κ} {v : α}
    {l : List (κ × α)} (h : (alookup q (ainsert k v l)).isSome) :
    q = k ∨ (alookup q l).isSome := by
  rw [alookup_ainsert] at h
  by_cases hq : q = k
  · exact Or.inl hq
  · simp [hq] at h
    exact Or.inr h

/-! ### Which state components each operation touches -/

theorem seenInsert_maps {p : FsPath} {w : Worker} {b : Bool} {w' : Worker}
    (h : seenInsert p w = (b, w')) :
    w'.hashForPath = w.hashForPath ∧ w'.fileHashes = w.fileHashes ∧
      w'.filesDone = w.filesDone ∧ w'.dirsDone = w.dirsDone ∧
      w'.totalFiles = w.totalFiles ∧ w'.totalDirs = w.totalDirs := by
  unfold seenInsert at h
  split at h <;> cases h <;> simp

theorem tally_maps {j : Job} {w : Worker} {b : Bool} {w' : Worker}
    (h : tally j w = (b, w')) :
    w'.hashForPath = w.hashForPath ∧ w'.fileHashes = w.fileHashes ∧
      w'.totalFiles = w.totalFiles ∧ w'.totalDirs = w.totalDirs := by
  unfold tally at h
  split at h <;>
    first
    | (cases h; simp)
    | (obtain ⟨h1, h2, h3, h4, h5, h6⟩ := seenInsert_maps h
       simp_all)

theorem JobPath_maps {p : FsPath} {m : Meta} {rootId : Option DevId}
    {devOf : FsPath → Option DevId} {w w' : Worker} {o : Outcome (Option Job)}
    (h : Job.path p m rootId devOf w = (w', o)) :
    w'.hashForPath = w.hashForPath ∧ w'.fileHashes = w.fileHashes ∧
      w'.seen = w.seen ∧ w'.filesDone = w.filesDone ∧ w'.dirsDone = w.dirsDone := by
  unfold Job.path at h
  split at h
  · cases h; simp
  · split at h
    · cases h; simp
    · split at h
      · cases h; simp
      · split at h <;> (cases h; simp)

theorem recurseGo_maps {devOf : FsPath → Option DevId} {rootId : Option DevId} :
    ∀ {entries : List Entry} {w : Worker} {jobs : List Job} {snap : List Item}
      {w' : Worker} {o : Outcome (List Job × List Item)},
      recurseGo devOf rootId entries w jobs snap = (w', o) →
      w'.hashForPath = w.hashForPath ∧ w'.fileHashes = w.fileHashes ∧ w'.seen = w.seen := by
  intro entries
  induction entries with
  | nil =>
    intro w jobs snap w' o h
    unfold recurseGo at h
    cases h
    simp
  | cons e rest ih =>
    intro w jobs snap w' o h
    match e with
    | .ioFail =>
      unfold recurseGo at h
      exact ih h
    | .ok p m =>
      unfold recurseGo at h
      split at h
      · cases h; simp
      · split at h
        · exact ih h
        · split at h
          · next heq =>
            have hjp := JobPath_maps heq
            cases h
            simp_all
          · next heq =>
            have hjp := JobPath_maps heq
            cases h
            simp_all
          · next heq =>
            have hjp := JobPath_maps heq
            have hrest := ih h
            simp_all
          · next heq =>
            have hjp := JobPath_maps heq
            have hrest := ih h
            simp_all

theorem recurse_maps {env : Env} {p : FsPath} {rootId : Option DevId} {w w' : Worker}
    {o : Outcome (List Job)} (h : recurse env p rootId w = (w', o)) :
    w'.hashForPath = w.hashForPath ∧ w'.fileHashes = w.fileHashes ∧ w'.seen = w.seen := by
  unfold recurse at h
  split at h
  · cases h; simp
  · split at h <;> (next heq => have := recurseGo_maps heq; cases h; simp_all)

theorem finalize_fst (relist : Option (List Entry)) (d : FsPath) (children : List Item)
    (w : Worker) : (finalize relist d children w).1 = w := by
  unfold finalize
  split <;> try rfl
  split <;> rfl

theorem hashFile_counters {p : FsPath} {m : Meta} {c : Option String} {w w' : Worker}
    {o : Outcome Unit} (h : hashFile p m c w = (w', o)) :
    w'.seen = w.seen ∧ w'.filesDone = w.filesDone ∧ w'.dirsDone = w.dirsDone ∧
      w'.totalFiles = w.totalFiles ∧ w'.totalDirs = w.totalDirs := by
  unfold hashFile at h
  split at h
  · cases h; simp
  · split at h
    · cases h; simp
    · split at h <;> (cases h; simp)

theorem hashFile_hfp_mono {p : FsPath} {m : Meta} {c : Option String} {w w' : Worker}
    {o : Outcome Unit} {q : FsPath} (h : hashFile p m c w = (w', o))
    (hq : (alookup q w.hashForPath).isSome) : (alookup q w'.hashForPath).isSome := by
  unfold hashFile at h
  split at h
  · cases h; exact hq
  · split at h
    · cases h
      exact alookup_ainsert_isSome_mono hq
    · split at h <;>
        (cases h; exact alookup_ainsert_isSome_mono hq)

theorem hashFile_inv {p : FsPath} {m : Meta} {c : Option String} {w w' : Worker}
    {o : Outcome Unit} (h : hashFile p m c w = (w', o)) (hw : BucketInv w) :
    BucketInv w' := by
  unfold hashFile at h
  split at h
  · cases h; exact hw
  · next cnt =>
    split at h
    · cases h
      intro hh bucket q hb hq
      exact alookup_ainsert_isSome_mono (hw hh bucket q hb hq)
    · next hprev =>
      split at h
      · cases h
        intro hh bucket q hb hq
        exact alookup_ainsert_isSome_mono (hw hh bucket q hb hq)
      · cases h
        intro hh bucket q hb hq
        simp only [alookup_ainsert] at hb
        by_cases hhh : hh = sha512 cnt
        · simp only [hhh, if_pos rfl] at hb
          cases hb
          rcases alookup_ainsert_isSome_elim hq with hqp | hq0
          · subst hqp
            simp [alookup_ainsert]
          · rcases hd : alookup (sha512 cnt) w.fileHashes with _ | b0
            · simp [hd, alookup] at hq0
            · refine alookup_ainsert_isSome_mono (hw (sha512 cnt) b0 q hd ?_)
              simpa [hd] using hq0
        · simp only [if_neg hhh] at hb
          exact alookup_ainsert_isSome_mono (hw hh bucket q hb hq)

theorem BucketInv_of_eq {w w' : Worker} (h1 : w'.hashForPath = w.hashForPath)
    (h2 : w'.fileHashes = w.fileHashes) (hw : BucketInv w) : BucketInv w' := by
  intro hh bucket q hb hq
  rw [h1]
  rw [h2] at hb
  exact hw hh bucket q hb hq

theorem process_inv {env : Env} {j : Job} {w w' : Worker} {o : Outcome (List Job)}
    (h : process env j w = (w', o)) (hw : BucketInv w) : BucketInv w' := by
  unfold process at h
  split at h
  · next heq =>
    cases h
    obtain ⟨h1, h2, -⟩ := tally_maps heq
    exact BucketInv_of_eq h1 h2 hw
  · next b wt heq =>
    obtain ⟨ht1, ht2, -⟩ := tally_maps heq
    have hwt : BucketInv wt := BucketInv_of_eq ht1 ht2 hw
    split at h
    · split at h <;>
        (next heq2 => cases h; exact hashFile_inv heq2 hwt)
    · obtain ⟨hr1, hr2, -⟩ := recurse_maps h
      exact BucketInv_of_eq hr1 hr2 hwt
    · cases h
      exact hwt
    · split at h <;>
        (next heq2 =>
          cases h
          have hf := congrArg Prod.fst heq2
          rw [finalize_fst] at hf
          have hf' : wt = w' := hf
          exact hf' ▸ hwt)

theorem process_hfp_mono {env : Env} {j : Job} {w w' : Worker} {o : Outcome (List Job)}
    {q : FsPath} (h : process env j w = (w', o))
    (hq : (alookup q w.hashForPath).isSome) : (alookup q w'.hashForPath).isSome := by
  unfold process at h
  split at h
  · next heq =>
    cases h
    obtain ⟨h1, -⟩ := tally_maps heq
    rw [h1]
    exact hq
  · next b wt heq =>
    obtain ⟨ht1, -⟩ := tally_maps heq
    have hqt : (alookup q wt.hashForPath).isSome := by rw [ht1]; exact hq
    split at h
    · split at h <;>
        (next heq2 => cases h; exact hashFile_hfp_mono heq2 hqt)
    · obtain ⟨hr1, -⟩ := recurse_maps h
      rw [hr1]
      exact hqt
    · cases h
      exact hqt
    · split at h <;>
        (next heq2 =>
          cases h
          have hf := congrArg Prod.fst heq2
          rw [finalize_fst] at hf
          have hf' : wt = w' := hf
          exact hf' ▸ hqt)

theorem wstep_inv {env : Env} {w w' : Worker} (h : WStep env w w') (hw : BucketInv w) :
    BucketInv w' := by
  cases h with
  | proc j w w' o hp => exact process_inv hp hw
  | root p m rootId w w' o hp =>
    obtain ⟨h1, h2, -⟩ := JobPath_maps hp
    exact BucketInv_of_eq h1 h2 hw

theorem wstep_hfp_mono {env : Env} {w w' : Worker} (h : WStep env w w') {q : FsPath}
    (hq : (alookup q w.hashForPath).isSome) : (alookup q w'.hashForPath).isSome := by
  cases h with
  | proc j w w' o hp => exact process_hfp_mono hp hq
  | root p m rootId w w' o hp =>
    obtain ⟨h1, -⟩ := JobPath_maps hp
    rw [h1]
    exact hq

theorem reachable_inv {env : Env} {blockSize : Nat} {w : Worker}
    (h : ReachableWorker env blockSize w) : BucketInv w := by
  induction h with
  | refl =>
    intro hh bucket q hb hq
    simp [Worker.init, alookup] at hb
  | tail hsteps hstep ih => exact wstep_inv hstep ih

theorem hashFile_registers {p : FsPath} {m : Meta} {c : String} {w w' : Worker}
    {o : Outcome Unit} (h : hashFile p m (some c) w = (w', o)) :
    (alookup p w'.hashForPath).isSome := by
  simp only [hashFile] at h
  split at h
  · cases h
    simp [alookup_ainsert]
  · split at h <;>
      (cases h; simp [alookup_ainsert])

theorem hashFile_prev_some {p : FsPath} {m : Meta} {c : String} {w w' : Worker}
    {o : Outcome Unit} (hprev : (alookup p w.hashForPath).isSome)
    (h : hashFile p m (some c) w = (w', o)) : w'.fileHashes = w.fileHashes := by
  simp only [hashFile] at h
  split at h
  · cases h
    rfl
  · next hp =>
    rw [hp] at hprev
    simp at hprev

theorem hashFile_prev_none {p : FsPath} {m : Meta} {c : String} {w w' : Worker}
    (hprev : alookup p w.hashForPath = none)
    (h : hashFile p m (some c) w = (w', .ok ())) :
    w'.fileHashes =
      ainsert (sha512 c) (ainsert p m ((alookup (sha512 c) w.fileHashes).getD []))
        w.fileHashes := by
  simp only [hashFile] at h
  split at h
  · next hp =>
    rw [hp] at hprev
    cases hprev
  · split at h
    · cases h
    · cases h
      rfl

/-- Claim C5: in every successful run of the file hasher, `(path, metadata)`
is added to the digest's bucket of `file_hashes` exactly when the preceding
`hash_for_path` insert found no existing entry for that path — otherwise
every bucket is left unchanged — so a path contributes to a bucket at most
once even when the hasher runs twice on the same path. -/
theorem hasher_bucket_once :
    (∀ (p : FsPath) (m : Meta) (c : String) (w w' : Worker),
        alookup p w.hashForPath = none → hashFile p m (some c) w = (w', .ok ()) →
        w'.fileHashes =
          ainsert (sha512 c) (ainsert p m ((alookup (sha512 c) w.fileHashes).getD []))
            w.fileHashes) ∧
    (∀ (p : FsPath) (m : Meta) (c : String) (w w' : Worker),
        (alookup p w.hashForPath).isSome → hashFile p m (some c) w = (w', .ok ()) →
        w'.fileHashes = w.fileHashes) ∧
    ∀ (p : FsPath) (m m' : Meta) (c c' : String) (w w₁ w₂ : Worker),
      hashFile p m (some c) w = (w₁, .ok ()) → hashFile p m' (some c') w₁ = (w₂, .ok ()) →
      w₂.fileHashes = w₁.fileHashes := by
  refine ⟨?_, ?_, ?_⟩
  · intro p m c w w' hprev h
    exact hashFile_prev_none hprev h
  · intro p m c w w' hprev h
    exact hashFile_prev_some hprev h
  · intro p m m' c c' w w₁ w₂ h1 h2
    exact hashFile_prev_some (hashFile_registers h1) h2

/-- Witness for C5 at a concrete state: hashing `a` ="hello" into the
fresh worker registers the path and fills the bucket; hashing it again
leaves `file_hashes` unchanged. -/
theorem hasher_bucket_once_witness :
    ((hashFile "a" mA (some "hello") (Worker.init 4)).1.fileHashes =
        ainsert (sha512 "hello") (ainsert "a" mA []) [] ∧
      (hashFile "a" mA (some "hello")
            (hashFile "a" mA (some "hello") (Worker.init 4)).1).1.fileHashes =
        (hashFile "a" mA (some "hello") (Worker.init 4)).1.fileHashes) := by
  constructor
  · exact hasher_bucket_once.1 "a" mA "hello" (Worker.init 4) _ (by decide) (by decide)
  · exact hasher_bucket_once.2.2 "a" mA mA "hello" "hello" (Worker.init 4) _ _
      (by decide) (by decide)

/-- Claim C6: at every reachable worker state, every path stored inside any
bucket of `file_hashes` already has an entry in `hash_for_path`; moreover
no operation (hasher, walker, finalizer, tally, root admission) removes
entries from `hash_for_path`. -/
theorem bucket_paths_registered :
    (∀ (env : Env) (blockSize : Nat) (w : Worker),
        ReachableWorker env blockSize w → BucketInv w) ∧
    ∀ (env : Env) (w w' : Worker), WStep env w w' →
      ∀ q : FsPath, (alookup q w.hashForPath).isSome → (alookup q w'.hashForPath).isSome :=
  ⟨fun _ _ _ h => reachable_inv h, fun _ _ _ h _ hq => wstep_hfp_mono h hq⟩

/-- Witness for C6: the state after admitting the root `d`, walking it and
hashing `a.txt` is reachable and satisfies the invariant, and one more step
(hashing `b.txt`) keeps `a.txt` registered. -/
theorem bucket_paths_registered_witness :
    BucketInv c4w3 ∧ (alookup "d/a.txt" c4w4.hashForPath).isSome := by
  have step1 : WStep envC4 (Worker.init 4) c4w1 :=
    WStep.root "d" mD (some 7) (Worker.init 4) c4w1 (.ok (some c4DirJob)) (by decide)
  have step2 : WStep envC4 c4w1 c4w2 :=
    WStep.proc c4DirJob c4w1 c4w2 (.ok [c4JobA, c4JobB, c4JobC, c4FinJob]) (by decide)
  have step3 : WStep envC4 c4w2 c4w3 :=
    WStep.proc c4JobA c4w2 c4w3 (.ok []) (by decide)
  have step4 : WStep envC4 c4w3 c4w4 :=
    WStep.proc c4JobB c4w3 c4w4 (.ok []) (by decide)
  constructor
  · exact bucket_paths_registered.1 envC4 4 c4w3
      (Relation.ReflTransGen.tail
        (Relation.ReflTransGen.tail
          (Relation.ReflTransGen.tail Relation.ReflTransGen.refl step1) step2) step3)
  · exact bucket_paths_registered.2 envC4 c4w3 c4w4 step4 "d/a.txt" (by decide)

/-- Claim C7: when cross-filesystem traversal is disabled, a path whose
device differs from its root's yields `Ok(None)` with the worker (hence
every counter) untouched and no error; when it is enabled the root id is
computed as `None`, and with a `None` root id `Job::path` can never return
the pruning `Ok(None)`. -/
theorem device_boundary_pruning :
    (∀ (p : FsPath) (m : Meta) (r d : DevId) (devOf : FsPath → Option DevId) (w : Worker),
        devOf p = some d → r ≠ d → Job.path p m (some r) devOf w = (w, .ok none)) ∧
    (∀ (devOf : FsPath → Option DevId) (p : FsPath), rootIdFor true devOf p = .ok none) ∧
    ∀ (p : FsPath) (m : Meta) (devOf : FsPath → Option DevId) (w w' : Worker),
      Job.path p m none devOf w = (w', .ok none) → False := by
  refine ⟨?_, ?_, ?_⟩
  · intro p m r d devOf w hdev hne
    unfold Job.path
    rw [hdev]
    simp [hne]
  · intro devOf p
    unfold rootIdFor
    simp
  · intro p m devOf w w' h
    unfold Job.path at h
    split at h
    · simp at h
    · simp only [decide_not] at h
      split at h
      · simp_all
      · split at h
        · simp at h
        · split at h <;> simp at h

/-- Witness for C7: path `D/t` (device 6) under root device 5 is pruned
without counting; with crossing enabled the root id is `None`. -/
theorem device_boundary_pruning_witness :
    Job.path "D/t" mB (some 5) envC3.devOf c3Worker = (c3Worker, .ok none) ∧
      rootIdFor true envC3.devOf "D" = .ok none := by
  constructor
  · exact device_boundary_pruning.1 "D/t" mB 5 6 envC3.devOf c3Worker (by decide) (by decide)
  · exact device_boundary_pruning.2.1 envC3.devOf "D"

theorem relistCheck_ne_err (r : Option (List Entry)) (ch : List Item) :
    relistCheck r ch ≠ .err := by
  unfold relistCheck
  split
  · intro h
    cases h
  · split <;> intro h <;> cases h

/-- Claim C8: the finalizer's re-list is best-effort staleness detection
only: the duplicate-info aggregation (and the returned worker) is the same
function of the snapshot whatever the re-list observed; a fresh set that
differs from the snapshot merely sets the warning; and with the warning set
finalize still completes on the original snapshot. -/
theorem finalize_snapshot_only :
    (∀ (r r' : Option (List Entry)) (d d' : FsPath) (ch : List Item) (w : Worker),
        relistCheck r ch ≠ .panic → relistCheck r' ch ≠ .panic →
        aggOutcome (finalize r d ch w) = aggOutcome (finalize r' d' ch w)) ∧
    (∀ (l : List Entry) (items ch : List Item),
        relistItems l = .ok items → itemSetEq items ch = false →
        relistCheck (some l) ch = .ok true) ∧
    ∀ (r : Option (List Entry)) (d : FsPath) (ch : List Item) (w : Worker)
      (b : Bool) (infos : List (Item × List (FsPath × Meta))),
      relistCheck r ch = .ok b → aggregate w ch = some infos →
      finalize r d ch w = (w, .ok ⟨b, infos⟩) := by
  refine ⟨?_, ?_, ?_⟩
  · intro r r' d d' ch w hr hr'
    unfold finalize
    rcases h1 : relistCheck r ch with b1 | _ | _
    · rcases h2 : relistCheck r' ch with b2 | _ | _
      · rcases ha : aggregate w ch with _ | infos <;> simp [aggOutcome]
      · exact absurd h2 (relistCheck_ne_err r' ch)
      · exact absurd h2 hr'
    · exact absurd h1 (relistCheck_ne_err r ch)
    · exact absurd h1 hr
  · intro l items ch hl hdiff
    simp [relistCheck, hl, hdiff]
  · intro r d ch w b infos hr ha
    unfold finalize
    rw [hr, ha]

/-- Witness for C8: deleting `c.txt` between enumeration and finalize (the
re-list sees only `a.txt`, `b.txt`) fires the warning but yields the same
duplicate-info as the quiescent re-list. -/
theorem finalize_snapshot_only_witness :
    aggOutcome (finalize (some [.ok "d/a.txt" mA, .ok "d/b.txt" mB]) "d" c4Snap c4w5) =
        aggOutcome (finalize (envC4.relistOf "d") "d" c4Snap c4w5) ∧
      relistCheck (some [.ok "d/a.txt" mA, .ok "d/b.txt" mB]) c4Snap = .ok true ∧
      finalize (some [.ok "d/a.txt" mA, .ok "d/b.txt" mB]) "d" c4Snap c4w5 =
        (c4w5, .ok ⟨true,
          [(.file "d/a.txt" mA, [("d/b.txt", mB)]),
           (.file "d/b.txt" mB, [("d/a.txt", mA)]),
           (.file "d/c.txt" mC, [])]⟩) := by
  refine ⟨?_, ?_, ?_⟩
  · exact finalize_snapshot_only.1 (some [.ok "d/a.txt" mA, .ok "d/b.txt" mB])
      (envC4.relistOf "d") "d" "d" c4Snap c4w5 (by decide) (by decide)
  · exact finalize_snapshot_only.2.1 [.ok "d/a.txt" mA, .ok "d/b.txt" mB]
      [.file "d/a.txt" mA, .file "d/b.txt" mB] c4Snap (by decide) (by decide)
  · exact finalize_snapshot_only.2.2 (some [.ok "d/a.txt" mA, .ok "d/b.txt" mB]) "d"
      c4Snap c4w5 true
      [(.file "d/a.txt" mA, [("d/b.txt", mB)]),
       (.file "d/b.txt" mB, [("d/a.txt", mA)]),
       (.file "d/c.txt" mC, [])] (by decide) (by decide)

/-- Counterexample to claim C1 as stated: finalize of `D` over children `a`
and `b` (both hashed into the "hello" bucket) completes, yet afterwards
path `a` is still present in the shared bucket
`file_hashes[hash_for_path[a]]` — the removal acted on a clone, so buckets
do not shrink. -/
theorem finalize_bucket_not_shrunk_cex :
    (finalize c1Relist "D" c1Children c1Worker).2 =
        .ok ⟨false, [(.file "a" mA, [("b", mB)]), (.file "b" mB, [("a", mA)])]⟩ ∧
      (alookup "a"
        ((alookup (sha512 "hello")
            (finalize c1Relist "D" c1Children c1Worker).1.fileHashes).getD [])).isSome := by
  decide

/-- Claim C1 amended: for every File child of the snapshot, finalize reads
the child's digest, clones the digest's bucket, and removes the child's own
path from the clone, yielding the remaining sibling entries as its
duplicate-info; the shared worker — `file_hashes` buckets included — is
returned unchanged. -/
theorem finalize_clones_buckets :
    (∀ (r : Option (List Entry)) (d : FsPath) (ch : List Item) (w : Worker),
        (finalize r d ch w).1 = w) ∧
    ∀ (w : Worker) (p : FsPath) (m : Meta) (h : FileDigest) (bucket : List (FsPath × Meta)),
      alookup p w.hashForPath = some h → alookup h w.fileHashes = some bucket →
      (alookup p bucket).isSome →
      childInfo w (.file p m) = some (aremove p bucket) := by
  refine ⟨finalize_fst, ?_⟩
  intro w p m h bucket h1 h2 h3
  simp [childInfo, h1, h2, h3]

/-- Witness for the amended C1 at the two-duplicate state: `a`'s
duplicate-info is the bucket minus `a` itself, and finalize hands the
worker back unchanged. -/
theorem finalize_clones_buckets_witness :
    childInfo c1Worker (.file "a" mA) = some (aremove "a" [("a", mA), ("b", mB)]) ∧
      (finalize c1Relist "D" c1Children c1Worker).1 = c1Worker := by
  constructor
  · exact finalize_clones_buckets.2 c1Worker "a" mA (sha512 "hello") [("a", mA), ("b", mB)]
      (by decide) (by decide) (by decide)
  · exact finalize_clones_buckets.1 c1Relist "D" c1Children c1Worker

theorem aggregate_none_of_missing {w : Worker} {p : FsPath} {m : Meta} :
    ∀ {ch : List Item}, Item.file p m ∈ ch → alookup p w.hashForPath = none →
      aggregate w ch = none := by
  intro ch
  induction ch with
  | nil =>
    intro h
    cases h
  | cons c rest ih =>
    intro hmem hnone
    rcases List.mem_cons.mp hmem with hc | hc
    · subst hc
      simp [aggregate, childInfo, hnone]
    · rcases hci : childInfo w c with _ | info
      · simp [aggregate, hci]
      · simp [aggregate, hci, ih hc hnone]

/-- Counterexample to claim C2 as stated: with File child `a` absent from
`hash_for_path` (as after a failed hashing job), finalize does not complete
normally — it panics. -/
theorem finalize_missing_entry_cex :
    finalize (some []) "D" [.file "a" mA] (Worker.init 4) = (Worker.init 4, .panic) := by
  decide

/-- Claim C2 amended: a FinalizeDirectory one of whose File children is
absent from `hash_for_path` indeed does not retry — but it does not treat
the child as absent and complete either: whatever the re-list observed, the
aggregation panics on the unwrapped index lookup. -/
theorem finalize_missing_entry_panics :
    ∀ (r : Option (List Entry)) (d : FsPath) (ch : List Item) (w : Worker)
      (p : FsPath) (m : Meta),
      Item.file p m ∈ ch → alookup p w.hashForPath = none →
      (finalize r d ch w).2 = .panic := by
  intro r d ch w p m hmem hnone
  unfold finalize
  rcases h1 : relistCheck r ch with b | _ | _
  · rw [aggregate_none_of_missing hmem hnone]
  · exact absurd h1 (relistCheck_ne_err r ch)
  · rfl

/-- Witness for the amended C2 at a concrete input. -/
theorem finalize_missing_entry_panics_witness :
    (finalize (some []) "D/x" [.file "a" mA] (Worker.init 4)).2 = .panic :=
  finalize_missing_entry_panics (some []) "D/x" [.file "a" mA] (Worker.init 4) "a" mA
    (by decide) (by decide)

/-- Claim C3: finalize is not total over snapshots the walker can produce:
walking `D` records both `D/s` (already in `seen` — no job created) and
`D/t` (pruned by the device check — no job created) in the snapshot, and
finalize of that snapshot panics on the unwrapped index lookup instead of
returning an error. -/
theorem finalize_not_total_on_walker_snapshots :
    recurse envC3 "D" (some 5) c3Worker = (c3Worker, .ok [.finalizeDir "D" c3Snap]) ∧
      finalize (envC3.relistOf "D") "D" c3Snap c3Worker = (c3Worker, .panic) := by
  decide

/-- Claim C4: the spec scenario `a.txt` = "hello", `b.txt` = "hello",
`c.txt` = "world": running the whole pipeline (root admission, walk, the
three hashing jobs, then finalize) yields duplicate-info {`b.txt`} for
`a.txt`, {`a.txt`} for `b.txt` and {} for `c.txt`. -/
theorem scenario_hello_world_dupinfo :
    createAll envC4.devOf (some 7) [("d", mD)] (Worker.init 4) = (c4w1, .ok [c4DirJob]) ∧
      process envC4 c4DirJob c4w1 = (c4w2, .ok [c4JobA, c4JobB, c4JobC, c4FinJob]) ∧
      process envC4 c4JobA c4w2 = (c4w3, .ok []) ∧
      process envC4 c4JobB c4w3 = (c4w4, .ok []) ∧
      process envC4 c4JobC c4w4 = (c4w5, .ok []) ∧
      finalize (envC4.relistOf "d") "d" c4Snap c4w5 =
        (c4w5, .ok ⟨false,
          [(.file "d/a.txt" mA, [("d/b.txt", mB)]),
           (.file "d/b.txt" mB, [("d/a.txt", mA)]),
           (.file "d/c.txt" mC, [])]⟩) := by
  decide

/-- Counterexample to claim C10 as stated: a Symlink job whose path is
already in `seen` (duplicate roots make this reachable) is tallied —
files-done is bumped — yet returns Ok, not an error. -/
theorem symlink_dup_ok_cex :
    process envC10 (.item (.symlink "l" mS) none) c10Worker =
      ({ c10Worker with filesDone := c10Worker.filesDone + 1 }, .ok []) := by
  decide

/-- Claim C10 amended: Symlink items are counted under the file counters
(total-files on admission by `Job::path`, files-done on execution by
`tally`); a Symlink job whose path is newly admitted to `seen` returns an
error after being tallied, while a duplicate execution is skipped with Ok;
in both cases the worker equations show `hash_for_path` and `file_hashes`
untouched, so a symlink path never gains a content-index entry. -/
theorem symlink_counted_as_file :
    (∀ (p : FsPath) (m : Meta) (d : DevId) (devOf : FsPath → Option DevId) (w : Worker),
        devOf p = some d → m.kind = .symlink →
        Job.path p m (some d) devOf w =
          ({ w with totalFiles := w.totalFiles + 1 },
            .ok (some (.item (.symlink p m) (some d))))) ∧
    (∀ (env : Env) (p : FsPath) (m : Meta) (rootId : Option DevId) (w : Worker),
        p ∉ w.seen →
        process env (.item (.symlink p m) rootId) w =
          ({ w with filesDone := w.filesDone + 1, seen := p :: w.seen }, .err)) ∧
    ∀ (env : Env) (p : FsPath) (m : Meta) (rootId : Option DevId) (w : Worker),
      p ∈ w.seen →
      process env (.item (.symlink p m) rootId) w =
        ({ w with filesDone := w.filesDone + 1 }, .ok []) := by
  refine ⟨?_, ?_, ?_⟩
  · intro p m d devOf w hdev hkind
    simp [Job.path, hdev, Item.new, hkind]
  · intro env p m rootId w hseen
    simp [process, tally, seenInsert, hseen]
  · intro env p m rootId w hseen
    simp [process, tally, seenInsert, hseen]

/-- Witness for the amended C10: admitting symlink `l` bumps total-files;
its first execution errors after tallying; a duplicate execution is
skipped with Ok. -/
theorem symlink_counted_as_file_witness :
    Job.path "l" mS (some 3) envC10.devOf (Worker.init 4) =
        ({ Worker.init 4 with totalFiles := 1 }, .ok (some (.item (.symlink "l" mS) (some 3)))) ∧
      process envC10 (.item (.symlink "l" mS) none) (Worker.init 4) =
        ({ Worker.init 4 with filesDone := 1, seen := ["l"] }, .err) ∧
      process envC10 (.item (.symlink "l" mS) none) c10Worker =
        ({ c10Worker with filesDone := c10Worker.filesDone + 1 }, .ok []) := by
  refine ⟨?_, ?_, ?_⟩
  · exact symlink_counted_as_file.1 "l" mS 3 envC10.devOf (Worker.init 4) (by decide) (by decide)
  · exact symlink_counted_as_file.2.1 envC10 "l" mS none (Worker.init 4) (by decide)
  · exact symlink_counted_as_file.2.2 envC10 "l" mS none c10Worker (by decide)

/-! ### Counter accounting -/

theorem tally_done_counters {j : Job} {w : Worker} {b : Bool} {w' : Worker}
    (h : tally j w = (b, w')) :
    w'.filesDone = w.filesDone + (if isFileJob j then 1 else 0) ∧
      w'.dirsDone = w.dirsDone + (if isDirJob j then 1 else 0) := by
  unfold tally at h
  split at h <;>
    first
    | (cases h; simp [isFileJob, isDirJob])
    | (unfold seenInsert at h
       split at h <;> (cases h; simp [isFileJob, isDirJob]))

theorem JobPath_totals {p : FsPath} {m : Meta} {rootId : Option DevId}
    {devOf : FsPath → Option DevId} {w w' : Worker} {o : Outcome (Option Job)}
    (h : Job.path p m rootId devOf w = (w', o)) :
    w'.totalFiles = w.totalFiles + spawnFiles o ∧
      w'.totalDirs = w.totalDirs + spawnDirs o := by
  unfold Job.path at h
  split at h
  · cases h; simp [spawnFiles, spawnDirs]
  · split at h
    · cases h; simp [spawnFiles, spawnDirs]
    · split at h
      · cases h; simp [spawnFiles, spawnDirs]
      · split at h <;>
          (cases h; simp [spawnFiles, spawnDirs, isFileJob, isDirJob])

theorem pendingFiles_append (a b : List Job) :
    pendingFiles (a ++ b) = pendingFiles a + pendingFiles b := by
  simp [pendingFiles, List.countP_append]

theorem pendingDirs_append (a b : List Job) :
    pendingDirs (a ++ b) = pendingDirs a + pendingDirs b := by
  simp [pendingDirs, List.countP_append]

theorem pendingFiles_single (j : Job) : pendingFiles [j] = if isFileJob j then 1 else 0 := by
  simp [pendingFiles, List.countP_cons, List.countP_nil]

theorem pendingDirs_single (j : Job) : pendingDirs [j] = if isDirJob j then 1 else 0 := by
  simp [pendingDirs, List.countP_cons, List.countP_nil]

theorem pendingFiles_nil : pendingFiles [] = 0 := rfl

theorem pendingDirs_nil : pendingDirs [] = 0 := rfl

theorem pendingFiles_finalizeDir (p : FsPath) (s : List Item) :
    pendingFiles [.finalizeDir p s] = 0 := rfl

theorem pendingDirs_finalizeDir (p : FsPath) (s : List Item) :
    pendingDirs [.finalizeDir p s] = 0 := rfl

theorem recurseGo_totals {devOf : FsPath → Option DevId} {rootId : Option DevId} :
    ∀ {entries : List Entry} {w : Worker} {jobs : List Job} {snap : List Item}
      {w' : Worker} {jobs' : List Job} {snap' : List Item},
      recurseGo devOf rootId entries w jobs snap = (w', .ok (jobs', snap')) →
      w'.totalFiles + pendingFiles jobs = w.totalFiles + pendingFiles jobs' ∧
        w'.totalDirs + pendingDirs jobs = w.totalDirs + pendingDirs jobs' ∧
        w'.filesDone = w.filesDone ∧ w'.dirsDone = w.dirsDone := by
  intro entries
  induction entries with
  | nil =>
    intro w jobs snap w' jobs' snap' h
    unfold recurseGo at h
    cases h
    simp
  | cons e rest ih =>
    intro w jobs snap w' jobs' snap' h
    match e with
    | .ioFail =>
      unfold recurseGo at h
      exact ih h
    | .ok p m =>
      unfold recurseGo at h
      split at h
      · cases h
      · split at h
        · exact ih h
        · split at h
          · cases h
          · cases h
          · next heq =>
            obtain ⟨ht1, ht2⟩ := JobPath_totals heq
            obtain ⟨-, -, -, hd1, hd2⟩ := JobPath_maps heq
            obtain ⟨ih1, ih2, ih3, ih4⟩ := ih h
            simp only [spawnFiles, spawnDirs] at ht1 ht2
            refine ⟨by omega, by omega, by omega, by omega⟩
          · next heq =>
            obtain ⟨ht1, ht2⟩ := JobPath_totals heq
            obtain ⟨-, -, -, hd1, hd2⟩ := JobPath_maps heq
            obtain ⟨ih1, ih2, ih3, ih4⟩ := ih h
            simp only [spawnFiles, spawnDirs] at ht1 ht2
            rw [pendingFiles_append, pendingFiles_single] at ih1
            rw [pendingDirs_append, pendingDirs_single] at ih2
            refine ⟨by omega, by omega, by omega, by omega⟩

theorem recurse_totals {env : Env} {p : FsPath} {rootId : Option DevId} {w w' : Worker}
    {spawned : List Job} (h : recurse env p rootId w = (w', .ok spawned)) :
    w'.totalFiles = w.totalFiles + pendingFiles spawned ∧
      w'.totalDirs = w.totalDirs + pendingDirs spawned ∧
      w'.filesDone = w.filesDone ∧ w'.dirsDone = w.dirsDone := by
  unfold recurse at h
  split at h
  · cases h
  · split at h
    · cases h
    · cases h
    · next heq =>
      cases h
      obtain ⟨ih1, ih2, ih3, ih4⟩ := recurseGo_totals heq
      rw [pendingFiles_nil] at ih1
      rw [pendingDirs_nil] at ih2
      rw [pendingFiles_append, pendingFiles_finalizeDir, pendingDirs_append,
        pendingDirs_finalizeDir]
      omega

theorem process_ok_counters {env : Env} {j : Job} {w w' : Worker} {spawned : List Job}
    (h : process env j w = (w', .ok spawned)) :
    w'.filesDone = w.filesDone + (if isFileJob j then 1 else 0) ∧
      w'.dirsDone = w.dirsDone + (if isDirJob j then 1 else 0) ∧
      w'.totalFiles = w.totalFiles + pendingFiles spawned ∧
      w'.totalDirs = w.totalDirs + pendingDirs spawned := by
  unfold process at h
  split at h
  · next heq =>
    cases h
    obtain ⟨hd1, hd2⟩ := tally_done_counters heq
    obtain ⟨-, -, ht1, ht2⟩ := tally_maps heq
    rw [pendingFiles_nil, pendingDirs_nil]
    omega
  · next b wt heq =>
    obtain ⟨hd1, hd2⟩ := tally_done_counters heq
    obtain ⟨-, -, ht1, ht2⟩ := tally_maps heq
    split at h
    · split at h
      · next heq2 =>
        cases h
        obtain ⟨-, hf1, hf2, hf3, hf4⟩ := hashFile_counters heq2
        rw [pendingFiles_nil, pendingDirs_nil]
        omega
      · cases h
      · cases h
    · obtain ⟨hr1, hr2, hr3, hr4⟩ := recurse_totals h
      omega
    · cases h
    · split at h
      · next heq2 =>
        cases h
        have hf : wt = w' := congrArg Prod.fst heq2 |>.symm.trans (finalize_fst _ _ _ wt) |>.symm
        subst hf
        rw [pendingFiles_nil, pendingDirs_nil]
        omega
      · cases h
      · cases h

theorem process_err_file_counters {env : Env} {j : Job} {w w' : Worker}
    (hj : isFileJob j = true) (h : process env j w = (w', .err)) :
    w'.filesDone = w.filesDone + 1 ∧ w'.dirsDone = w.dirsDone ∧
      w'.totalFiles = w.totalFiles ∧ w'.totalDirs = w.totalDirs := by
  unfold process at h
  split at h
  · cases h
  · next b wt heq =>
    obtain ⟨hd1, hd2⟩ := tally_done_counters heq
    obtain ⟨-, -, ht1, ht2⟩ := tally_maps heq
    split at h
    · split at h
      · cases h
      · next heq2 =>
        cases h
        obtain ⟨-, hf1, hf2, hf3, hf4⟩ := hashFile_counters heq2
        simp only [isFileJob, isDirJob, if_pos, if_neg] at hd1 hd2
        simp at hd1 hd2
        omega
      · cases h
    · simp only [isFileJob] at hj
      cases hj
    · cases h
      simp only [isFileJob, isDirJob] at hd1 hd2
      simp at hd1 hd2
      omega
    · simp only [isFileJob] at hj
      cases hj

theorem isDirJob_eq_false_of_isFileJob {j : Job} (h : isFileJob j = true) :
    isDirJob j = false := by
  cases j with
  | item i rid => cases i <;> simp_all [isFileJob, isDirJob]
  | finalizeDir p s => simp [isFileJob] at h

theorem schedstep_balanced {env : Env} {c c' : Config} (h : SchedStep env c c')
    (hb : CountersBalanced c) : CountersBalanced c' := by
  obtain ⟨hb1, hb2⟩ := hb
  cases h with
  | okStep j c w' spawned hmem hp =>
    obtain ⟨h1, h2, h3, h4⟩ := process_ok_counters hp
    have hpf : pendingFiles c.pending =
        pendingFiles (c.pending.erase j) + (if isFileJob j then 1 else 0) := by
      have hperm := List.perm_cons_erase hmem
      have hcp := hperm.countP_eq (fun x => isFileJob x)
      simpa [pendingFiles, List.countP_cons] using hcp
    have hpd : pendingDirs c.pending =
        pendingDirs (c.pending.erase j) + (if isDirJob j then 1 else 0) := by
      have hperm := List.perm_cons_erase hmem
      have hcp := hperm.countP_eq (fun x => isDirJob x)
      simpa [pendingDirs, List.countP_cons] using hcp
    refine ⟨?_, ?_⟩
    · show w'.totalFiles = w'.filesDone + pendingFiles (c.pending.erase j ++ spawned)
      rw [pendingFiles_append]
      by_cases hfj : isFileJob j <;> simp [hfj] at h1 hpf <;> omega
    · show w'.totalDirs = w'.dirsDone + pendingDirs (c.pending.erase j ++ spawned)
      rw [pendingDirs_append]
      by_cases hdj : isDirJob j <;> simp [hdj] at h2 hpd <;> omega
  | errFile j c w' hmem hj hp =>
    obtain ⟨h1, h2, h3, h4⟩ := process_err_file_counters hj hp
    have hpf : pendingFiles c.pending =
        pendingFiles (c.pending.erase j) + (if isFileJob j then 1 else 0) := by
      have hperm := List.perm_cons_erase hmem
      have hcp := hperm.countP_eq (fun x => isFileJob x)
      simpa [pendingFiles, List.countP_cons] using hcp
    have hpd : pendingDirs c.pending =
        pendingDirs (c.pending.erase j) + (if isDirJob j then 1 else 0) := by
      have hperm := List.perm_cons_erase hmem
      have hcp := hperm.countP_eq (fun x => isDirJob x)
      simpa [pendingDirs, List.countP_cons] using hcp
    rw [hj] at hpf
    rw [isDirJob_eq_false_of_isFileJob hj] at hpd
    simp at hpf hpd
    refine ⟨?_, ?_⟩
    · show w'.totalFiles = w'.filesDone + pendingFiles (c.pending.erase j)
      omega
    · show w'.totalDirs = w'.dirsDone + pendingDirs (c.pending.erase j)
      omega

theorem schedsteps_balanced {env : Env} {c c' : Config}
    (h : Relation.ReflTransGen (SchedStep env) c c') (hb : CountersBalanced c) :
    CountersBalanced c' := by
  induction h with
  | refl => exact hb
  | tail hs hstep ih => exact schedstep_balanced hstep ih

theorem createAll_totals {devOf : FsPath → Option DevId} {rootId : Option DevId} :
    ∀ {roots : List (FsPath × Meta)} {w w' : Worker} {jobs : List Job},
      createAll devOf rootId roots w = (w', .ok jobs) →
      w'.totalFiles = w.totalFiles + pendingFiles jobs ∧
        w'.totalDirs = w.totalDirs + pendingDirs jobs ∧
        w'.filesDone = w.filesDone ∧ w'.dirsDone = w.dirsDone := by
  intro roots
  induction roots with
  | nil =>
    intro w w' jobs h
    unfold createAll at h
    cases h
    simp [pendingFiles_nil, pendingDirs_nil]
  | cons r rest ih =>
    intro w w' jobs h
    obtain ⟨p, m⟩ := r
    unfold createAll at h
    split at h
    · cases h
    · cases h
    · next heq =>
      obtain ⟨ht1, ht2⟩ := JobPath_totals heq
      obtain ⟨-, -, -, hd1, hd2⟩ := JobPath_maps heq
      obtain ⟨ih1, ih2, ih3, ih4⟩ := ih h
      simp only [spawnFiles, spawnDirs] at ht1 ht2
      refine ⟨by omega, by omega, by omega, by omega⟩
    · next j heq =>
      split at h
      · next heq2 =>
        cases h
        obtain ⟨ht1, ht2⟩ := JobPath_totals heq
        obtain ⟨-, -, -, hd1, hd2⟩ := JobPath_maps heq
        obtain ⟨ih1, ih2, ih3, ih4⟩ := ih heq2
        simp only [spawnFiles, spawnDirs] at ht1 ht2
        constructor
        · show _ = w.totalFiles + pendingFiles (j :: _)
          simp only [pendingFiles, List.countP_cons] at *
          by_cases hfj : isFileJob j <;> simp [hfj] at * <;> omega
        constructor
        · show _ = w.totalDirs + pendingDirs (j :: _)
          simp only [pendingDirs, List.countP_cons] at *
          by_cases hdj : isDirJob j <;> simp [hdj] at * <;> omega
        · exact ⟨by omega, by omega⟩
      · cases h
      · cases h

/-- Claim C9: on any run whose root admission succeeds and whose job graph
drains through ok-steps and dropped file-job errors alone (a finite,
acyclic, permission-error-free tree), once the pending set is empty
files-done equals total-files and dirs-done equals total-dirs: each admitted
`ProcessItem` job bumps exactly one total at creation and the matching done
counter exactly once at execution, duplicates included. -/
theorem drained_counters_match :
    ∀ (env : Env) (rootId : Option DevId) (roots : List (FsPath × Meta))
      (w₀ w₁ : Worker) (jobs : List Job) (cfin : Config),
      w₀.totalFiles = w₀.filesDone → w₀.totalDirs = w₀.dirsDone →
      createAll env.devOf rootId roots w₀ = (w₁, .ok jobs) →
      Relation.ReflTransGen (SchedStep env) ⟨jobs, w₁⟩ cfin →
      cfin.pending = [] →
      cfin.w.totalFiles = cfin.w.filesDone ∧ cfin.w.totalDirs = cfin.w.dirsDone := by
  intro env rootId roots w₀ w₁ jobs cfin hb1 hb2 hc hsteps hnil
  have hbal : CountersBalanced ⟨jobs, w₁⟩ := by
    obtain ⟨h1, h2, h3, h4⟩ := createAll_totals hc
    refine ⟨?_, ?_⟩
    · show w₁.totalFiles = w₁.filesDone + pendingFiles jobs
      omega
    · show w₁.totalDirs = w₁.dirsDone + pendingDirs jobs
      omega
  obtain ⟨hf1, hf2⟩ := schedsteps_balanced hsteps hbal
  rw [hnil, pendingFiles_nil] at hf1
  rw [hnil, pendingDirs_nil] at hf2
  omega

/-- Witness for C9: admitting the single root `d/a.txt` and draining the
one-job graph ends with both counter pairs equal. -/
theorem drained_counters_match_witness :
    c9w2.totalFiles = c9w2.filesDone ∧ c9w2.totalDirs = c9w2.dirsDone := by
  have hstep : SchedStep envC4 c9cfg ⟨c9cfg.pending.erase c4JobA ++ [], c9w2⟩ :=
    SchedStep.okStep c4JobA c9cfg c9w2 [] (by decide) (by decide)
  exact drained_counters_match envC4 (some 7) [("d/a.txt", mA)] (Worker.init 4) c9w1
    [c4JobA] ⟨c9cfg.pending.erase c4JobA ++ [], c9w2⟩ (by decide) (by decide) (by decide)
    (Relation.ReflTransGen.single hstep) (by decide)
